import Mathlib

/-!
Shallow embedding of the Plinko game's simulation core
(`src/plinko-game-final.py`). Python floats are modelled as real numbers;
the cosmetic random choices (peg colors, particle colors, particle burst
directions) have no effect on physics or score and are not modelled.
Every definition mirrors the corresponding Python function; line numbers
in the comments refer to the source file.
-/

namespace Plinko

open Classical

/-! ## Global settings (lines 16-56) -/

def SCREEN_WIDTH : ℝ := 800
def SCREEN_HEIGHT : ℝ := 600
def BALL_RADIUS : ℝ := 12
def GRAVITY : ℝ := 0.4
def MAX_BALL_SPEED : ℝ := 25
def WALL_BOUNCE_FACTOR : ℝ := 0.8
def COLLISION_DAMPING : ℝ := 0.9
def PEG_RADIUS : ℝ := 12
def PEG_SPACING_X : ℝ := 70
def PEG_SPACING_Y : ℝ := 70
def PEG_OFFSET_TOP : ℝ := 80
def NUM_PEG_ROWS : ℕ := 8
def BOX_COUNT : ℕ := 5
def BOX_HEIGHT : ℝ := 80
def BOX_VALUES : List ℤ := [10, 20, 50, 20, 10]
def PARTICLE_LIFETIME : ℤ := 30

/-! ## Particle (lines 82-95): position/velocity in ℝ, integer lifetime. -/

structure Particle where
  x : ℝ
  y : ℝ
  vx : ℝ
  vy : ℝ
  lifetime : ℤ

/-- Particle.update (lines 91-95): integrate position, add the light
downward acceleration 0.1 to vy, decrement lifetime. -/
def Particle.update (p : Particle) : Particle :=
  { p with x := p.x + p.vx, y := p.y + p.vy, vy := p.vy + 0.1,
           lifetime := p.lifetime - 1 }

/-! ## Peg (lines 185-196): fixed position and radius, owns its particles. -/

structure Peg where
  x : ℝ
  y : ℝ
  radius : ℝ
  particles : List Particle

/-- Peg.update (lines 193-196): update every particle, then keep only the
particles whose lifetime is still positive. -/
def Peg.update (g : Peg) : Peg :=
  { g with particles :=
      (g.particles.map Particle.update).filter (fun p => decide (0 < p.lifetime)) }

/-- Iterating Particle.update leaves the lifetime decremented once per step. -/
lemma Particle.lifetime_iterate (p : Particle) (k : ℕ) :
    (Particle.update^[k] p).lifetime = p.lifetime - k := by
  induction k generalizing p with
  | zero => simp
  | succ k ih =>
      rw [Function.iterate_succ_apply, ih]
      simp [Particle.update]
      omega

/-- One Peg.update step keeps, of a particle list, exactly the particles
whose remaining lifetime exceeds the k further steps still to run. -/
lemma Particle.filter_update_step (l : List Particle) (k : ℕ) :
    ((l.map Particle.update).filter (fun p => decide (0 < p.lifetime))).filter
        (fun p => decide ((k : ℤ) < p.lifetime))
      = (l.filter (fun p => decide ((k : ℤ) + 1 < p.lifetime))).map
          Particle.update := by
  induction l with
  | nil => simp
  | cons q l ih =>
      by_cases hq : ((k : ℤ) + 1 < q.lifetime)
      · have h1 : (0 : ℤ) < (Particle.update q).lifetime := by
          simp [Particle.update]; omega
        have h2 : (k : ℤ) < (Particle.update q).lifetime := by
          simp [Particle.update]; omega
        simp only [List.map_cons, List.filter_cons]
        rw [if_pos (by simpa using h1), List.filter_cons, if_pos (by simpa using h2),
          if_pos (by simpa using hq), List.map_cons, ih]
      · have h2 : ¬ ((0 : ℤ) < (Particle.update q).lifetime ∧
            (k : ℤ) < (Particle.update q).lifetime) := by
          simp [Particle.update]; omega
        simp only [List.map_cons, List.filter_cons]
        by_cases h1 : (0 : ℤ) < (Particle.update q).lifetime
        · rw [if_pos (by simpa using h1), List.filter_cons,
            if_neg (by simpa using fun h => h2 ⟨h1, h⟩), if_neg (by simpa using hq), ih]
        · rw [if_neg (by simpa using h1), if_neg (by simpa using hq), ih]

/-- After k steps of Peg.update of a peg whose particles all start with
positive lifetime, the surviving particles are exactly the original
particles whose lifetime exceeds k, each aged k times. -/
lemma Peg.particles_update_iterate (g : Peg) (k : ℕ)
    (h : ∀ p ∈ g.particles, 0 < p.lifetime) :
    (Peg.update^[k] g).particles =
      (g.particles.filter (fun p => decide ((k : ℤ) < p.lifetime))).map
        (Particle.update^[k]) := by
  induction k generalizing g with
  | zero =>
      simp only [Function.iterate_zero, id, Nat.cast_zero, List.map_id]
      rw [List.filter_eq_self.mpr]
      intro p hp
      simpa using h p hp
  | succ k ih =>
      rw [Function.iterate_succ_apply, ih (Peg.update g) ?_]
      · show (((g.particles.map Particle.update).filter
            (fun p => decide (0 < p.lifetime))).filter
              (fun p => decide ((k : ℤ) < p.lifetime))).map (Particle.update^[k]) = _
        rw [Particle.filter_update_step, List.map_map,
          ← Function.iterate_succ Particle.update k]
        have hk : ((k : ℤ) + 1) = (((k + 1 : ℕ) : ℤ)) := by push_cast; ring
        rw [hk]
      · intro p hp
        simp only [Peg.update, List.mem_filter] at hp
        simpa using hp.2

/-! ## Ball (lines 103-180): the dynamic physics body. Ball.update is the
per-step pipeline of lines 113-143, split into one definition per source
statement group and composed in the source's order. -/

structure Ball where
  x : ℝ
  y : ℝ
  radius : ℝ
  vx : ℝ
  vy : ℝ
  finalized : Bool

/-- Speed `math.sqrt(vx*vx + vy*vy)` of line 115. -/
noncomputable def Ball.speed (b : Ball) : ℝ :=
  Real.sqrt (b.vx * b.vx + b.vy * b.vy)

/-- Gravity application of line 114. -/
def Ball.applyGravity (b : Ball) : Ball :=
  { b with vy := b.vy + GRAVITY }

/-- Speed clamp of lines 116-119. -/
noncomputable def Ball.clampSpeed (b : Ball) : Ball :=
  if b.speed > MAX_BALL_SPEED then
    { b with vx := b.vx * (MAX_BALL_SPEED / b.speed),
             vy := b.vy * (MAX_BALL_SPEED / b.speed) }
  else b

/-- Euler integration of lines 121-122. -/
def Ball.integrate (b : Ball) : Ball :=
  { b with x := b.x + b.vx, y := b.y + b.vy }

/-- Wall handling of lines 124-130. -/
noncomputable def Ball.bounceWalls (b : Ball) : Ball :=
  if b.x - b.radius < 0 then
    { b with x := b.radius, vx := -b.vx * WALL_BOUNCE_FACTOR }
  else if b.x + b.radius > SCREEN_WIDTH then
    { b with x := SCREEN_WIDTH - b.radius, vx := -b.vx * WALL_BOUNCE_FACTOR }
  else b

/-- Ceiling handling of lines 132-135. -/
noncomputable def Ball.bounceCeiling (b : Ball) : Ball :=
  if b.y - b.radius < 0 then
    { b with y := b.radius, vy := -b.vy * WALL_BOUNCE_FACTOR }
  else b

/-- Center distance `dist_centers` of lines 146-148. -/
noncomputable def Ball.dist_centers (b : Ball) (peg : Peg) : ℝ :=
  Real.sqrt ((b.x - peg.x) * (b.x - peg.x) + (b.y - peg.y) * (b.y - peg.y))

/-- Collision normal `(nx, ny)` of lines 152-157, with the fixed fallback
`(1, 0)` when the centers coincide. -/
noncomputable def Ball.collision_normal (b : Ball) (peg : Peg) : ℝ × ℝ :=
  if b.dist_centers peg = 0 then (1, 0)
  else ((b.x - peg.x) / b.dist_centers peg, (b.y - peg.y) / b.dist_centers peg)

/-- Ball.handle_peg_collision (lines 145-162): positional correction by the
overlap along the normal, then the damped velocity reflection. The random
particle burst of lines 164-173 is cosmetic and not modelled. -/
noncomputable def Ball.handle_peg_collision (b : Ball) (peg : Peg) : Ball :=
  if b.dist_centers peg < b.radius + peg.radius then
    let n := b.collision_normal peg
    let overlap := b.radius + peg.radius - b.dist_centers peg
    let dot := b.vx * n.1 + b.vy * n.2
    { b with x := b.x + n.1 * overlap,
             y := b.y + n.2 * overlap,
             vx := b.vx - 2 * dot * n.1 * COLLISION_DAMPING,
             vy := b.vy - 2 * dot * n.2 * COLLISION_DAMPING }
  else b

/-- Finalization check of lines 141-143. -/
noncomputable def Ball.checkFinalized (b : Ball) (box_y_top : ℝ) : Ball :=
  if b.y + b.radius ≥ box_y_top then { b with finalized := true } else b

/-- Ball.update (lines 113-143): gravity, speed clamp, integration, walls,
ceiling, every peg in order, then the finalization check. -/
noncomputable def Ball.update (b : Ball) (pegs : List Peg) (box_y_top : ℝ) : Ball :=
  Ball.checkFinalized
    (pegs.foldl Ball.handle_peg_collision
      b.applyGravity.clampSpeed.integrate.bounceWalls.bounceCeiling)
    box_y_top

/-! ## Geometry of the collision resolution -/

lemma Ball.dist_centers_nonneg (b : Ball) (peg : Peg) : 0 ≤ b.dist_centers peg :=
  Real.sqrt_nonneg _

lemma Ball.dist_centers_mul_self (b : Ball) (peg : Peg) :
    b.dist_centers peg * b.dist_centers peg
      = (b.x - peg.x) * (b.x - peg.x) + (b.y - peg.y) * (b.y - peg.y) :=
  Real.mul_self_sqrt (add_nonneg (mul_self_nonneg _) (mul_self_nonneg _))

lemma Ball.dist_centers_eq_zero_iff (b : Ball) (peg : Peg) :
    b.dist_centers peg = 0 ↔ b.x = peg.x ∧ b.y = peg.y := by
  constructor
  · intro h
    have h2 := b.dist_centers_mul_self peg
    rw [h, mul_zero] at h2
    constructor
    · nlinarith [mul_self_nonneg (b.x - peg.x), mul_self_nonneg (b.y - peg.y)]
    · nlinarith [mul_self_nonneg (b.x - peg.x), mul_self_nonneg (b.y - peg.y)]
  · intro ⟨hx, hy⟩
    rw [Ball.dist_centers, hx, hy]
    simp

/-- The collision normal is a unit vector in both branches of lines 152-157. -/
lemma Ball.collision_normal_norm (b : Ball) (peg : Peg) :
    (b.collision_normal peg).1 * (b.collision_normal peg).1
      + (b.collision_normal peg).2 * (b.collision_normal peg).2 = 1 := by
  rw [Ball.collision_normal]
  by_cases h : b.dist_centers peg = 0
  · rw [if_pos h]; norm_num
  · rw [if_neg h]
    have hm := b.dist_centers_mul_self peg
    field_simp
    linarith [hm]

/-- The collision normal scaled by the center distance is the center offset. -/
lemma Ball.collision_normal_mul_dist (b : Ball) (peg : Peg) :
    (b.collision_normal peg).1 * b.dist_centers peg = b.x - peg.x ∧
    (b.collision_normal peg).2 * b.dist_centers peg = b.y - peg.y := by
  rw [Ball.collision_normal]
  by_cases h : b.dist_centers peg = 0
  · rw [if_pos h, h]
    obtain ⟨hx, hy⟩ := (b.dist_centers_eq_zero_iff peg).mp h
    constructor <;> simp [hx, hy]
  · rw [if_neg h]
    constructor <;> (simp only; field_simp)

/-- The first component of the collision normal has absolute value ≤ 1. -/
lemma Ball.collision_normal_abs_fst_le_one (b : Ball) (peg : Peg) :
    |(b.collision_normal peg).1| ≤ 1 := by
  have h := b.collision_normal_norm peg
  nlinarith [abs_mul_abs_self (b.collision_normal peg).1, abs_nonneg (b.collision_normal peg).1,
    mul_self_nonneg (b.collision_normal peg).2]

/-- The collision branch of handle_peg_collision, written out. -/
lemma Ball.handle_peg_collision_of_lt (b : Ball) (peg : Peg)
    (h : b.dist_centers peg < b.radius + peg.radius) :
    b.handle_peg_collision peg =
      { b with
        x := b.x + (b.collision_normal peg).1
              * (b.radius + peg.radius - b.dist_centers peg),
        y := b.y + (b.collision_normal peg).2
              * (b.radius + peg.radius - b.dist_centers peg),
        vx := b.vx - 2 * (b.vx * (b.collision_normal peg).1
              + b.vy * (b.collision_normal peg).2)
              * (b.collision_normal peg).1 * COLLISION_DAMPING,
        vy := b.vy - 2 * (b.vx * (b.collision_normal peg).1
              + b.vy * (b.collision_normal peg).2)
              * (b.collision_normal peg).2 * COLLISION_DAMPING } := by
  rw [Ball.handle_peg_collision, if_pos h]

/-- The no-collision branch of handle_peg_collision. -/
lemma Ball.handle_peg_collision_of_ge (b : Ball) (peg : Peg)
    (h : ¬ b.dist_centers peg < b.radius + peg.radius) :
    b.handle_peg_collision peg = b := by
  rw [Ball.handle_peg_collision, if_neg h]

/-- After the collision branch, the center offset is the normal scaled by
the sum of radii. -/
lemma Ball.handle_peg_collision_offset (b : Ball) (peg : Peg)
    (h : b.dist_centers peg < b.radius + peg.radius) :
    (b.handle_peg_collision peg).x - peg.x
        = (b.collision_normal peg).1 * (b.radius + peg.radius) ∧
    (b.handle_peg_collision peg).y - peg.y
        = (b.collision_normal peg).2 * (b.radius + peg.radius) := by
  obtain ⟨hx, hy⟩ := b.collision_normal_mul_dist peg
  rw [b.handle_peg_collision_of_lt peg h]
  constructor
  · show b.x + (b.collision_normal peg).1
        * (b.radius + peg.radius - b.dist_centers peg) - peg.x = _
    nlinarith [hx]
  · show b.y + (b.collision_normal peg).2
        * (b.radius + peg.radius - b.dist_centers peg) - peg.y = _
    nlinarith [hy]

/-! ## Velocity effects of the collision resolution -/

lemma Ball.handle_peg_collision_radius (b : Ball) (peg : Peg) :
    (b.handle_peg_collision peg).radius = b.radius := by
  by_cases h : b.dist_centers peg < b.radius + peg.radius
  · rw [b.handle_peg_collision_of_lt peg h]
  · rw [b.handle_peg_collision_of_ge peg h]

/-- The normal component of the velocity after a resolved collision is the
incoming one times `1 - 2 * COLLISION_DAMPING`. -/
lemma Ball.handle_peg_collision_dot (b : Ball) (peg : Peg)
    (h : b.dist_centers peg < b.radius + peg.radius) :
    (b.handle_peg_collision peg).vx * (b.collision_normal peg).1
        + (b.handle_peg_collision peg).vy * (b.collision_normal peg).2
      = (1 - 2 * COLLISION_DAMPING)
          * (b.vx * (b.collision_normal peg).1 + b.vy * (b.collision_normal peg).2) := by
  have hn := b.collision_normal_norm peg
  rw [b.handle_peg_collision_of_lt peg h]
  dsimp only
  linear_combination (-(2 : ℝ) * COLLISION_DAMPING
    * (b.vx * (b.collision_normal peg).1 + b.vy * (b.collision_normal peg).2)) * hn

/-- The tangential component of the velocity is unchanged by a resolved
collision. -/
lemma Ball.handle_peg_collision_tangential (b : Ball) (peg : Peg)
    (h : b.dist_centers peg < b.radius + peg.radius) :
    (b.handle_peg_collision peg).vx * (-(b.collision_normal peg).2)
        + (b.handle_peg_collision peg).vy * (b.collision_normal peg).1
      = b.vx * (-(b.collision_normal peg).2) + b.vy * (b.collision_normal peg).1 := by
  rw [b.handle_peg_collision_of_lt peg h]
  dsimp only
  ring

/-- A collision resolution never increases the squared speed. -/
lemma Ball.handle_peg_collision_speed_sq_le (b : Ball) (peg : Peg) :
    (b.handle_peg_collision peg).vx * (b.handle_peg_collision peg).vx
        + (b.handle_peg_collision peg).vy * (b.handle_peg_collision peg).vy
      ≤ b.vx * b.vx + b.vy * b.vy := by
  by_cases h : b.dist_centers peg < b.radius + peg.radius
  · have hn := b.collision_normal_norm peg
    rw [b.handle_peg_collision_of_lt peg h]
    dsimp only
    have hd : COLLISION_DAMPING = 0.9 := rfl
    rw [hd] at *
    nlinarith [hn, sq_nonneg (b.vx * (b.collision_normal peg).1
      + b.vy * (b.collision_normal peg).2)]
  · rw [b.handle_peg_collision_of_ge peg h]

/-! ## Speed lemmas for the per-step pipeline -/

lemma Ball.speed_nonneg (b : Ball) : 0 ≤ b.speed := Real.sqrt_nonneg _

lemma Ball.speed_mul_self (b : Ball) :
    b.speed * b.speed = b.vx * b.vx + b.vy * b.vy :=
  Real.mul_self_sqrt (add_nonneg (mul_self_nonneg _) (mul_self_nonneg _))

/-- The clamp of lines 116-119 leaves the speed at exactly the minimum of
the incoming speed and the cap. -/
lemma Ball.clampSpeed_speed (b : Ball) :
    (b.clampSpeed).speed = min b.speed MAX_BALL_SPEED := by
  rw [Ball.clampSpeed]
  by_cases h : b.speed > MAX_BALL_SPEED
  · rw [if_pos h]
    have hpos : (0 : ℝ) < b.speed := lt_trans (by norm_num [MAX_BALL_SPEED]) h
    have hc : (0 : ℝ) ≤ MAX_BALL_SPEED / b.speed :=
      div_nonneg (by norm_num [MAX_BALL_SPEED]) (le_of_lt hpos)
    show Real.sqrt (b.vx * (MAX_BALL_SPEED / b.speed) * (b.vx * (MAX_BALL_SPEED / b.speed))
        + b.vy * (MAX_BALL_SPEED / b.speed) * (b.vy * (MAX_BALL_SPEED / b.speed))) = _
    have hrw : b.vx * (MAX_BALL_SPEED / b.speed) * (b.vx * (MAX_BALL_SPEED / b.speed))
        + b.vy * (MAX_BALL_SPEED / b.speed) * (b.vy * (MAX_BALL_SPEED / b.speed))
        = (MAX_BALL_SPEED / b.speed) * (MAX_BALL_SPEED / b.speed)
            * (b.vx * b.vx + b.vy * b.vy) := by ring
    rw [hrw, Real.sqrt_mul (mul_self_nonneg _), Real.sqrt_mul_self hc]
    show MAX_BALL_SPEED / b.speed * b.speed = _
    rw [div_mul_cancel₀ _ (ne_of_gt hpos), min_eq_right (le_of_lt h)]
  · rw [if_neg h, min_eq_left (not_lt.mp h)]

lemma Ball.bounceWalls_speed_sq_le (b : Ball) :
    (b.bounceWalls).vx * (b.bounceWalls).vx + (b.bounceWalls).vy * (b.bounceWalls).vy
      ≤ b.vx * b.vx + b.vy * b.vy := by
  rw [Ball.bounceWalls]
  have hw : WALL_BOUNCE_FACTOR = 0.8 := rfl
  split_ifs <;> (try rw [hw]) <;>
    nlinarith [mul_self_nonneg b.vx, mul_self_nonneg b.vy]

lemma Ball.bounceCeiling_speed_sq_le (b : Ball) :
    (b.bounceCeiling).vx * (b.bounceCeiling).vx
        + (b.bounceCeiling).vy * (b.bounceCeiling).vy
      ≤ b.vx * b.vx + b.vy * b.vy := by
  rw [Ball.bounceCeiling]
  have hw : WALL_BOUNCE_FACTOR = 0.8 := rfl
  split_ifs <;> (try rw [hw]) <;>
    nlinarith [mul_self_nonneg b.vx, mul_self_nonneg b.vy]

lemma Ball.foldl_handle_speed_sq_le (pegs : List Peg) (b : Ball) :
    (pegs.foldl Ball.handle_peg_collision b).vx
          * (pegs.foldl Ball.handle_peg_collision b).vx
        + (pegs.foldl Ball.handle_peg_collision b).vy
          * (pegs.foldl Ball.handle_peg_collision b).vy
      ≤ b.vx * b.vx + b.vy * b.vy := by
  induction pegs generalizing b with
  | nil => exact le_refl _
  | cons p ps ih =>
      exact le_trans (ih (b.handle_peg_collision p))
        (b.handle_peg_collision_speed_sq_le p)

lemma Ball.checkFinalized_fields (b : Ball) (t : ℝ) :
    (b.checkFinalized t).vx = b.vx ∧ (b.checkFinalized t).vy = b.vy ∧
      (b.checkFinalized t).x = b.x ∧ (b.checkFinalized t).radius = b.radius := by
  rw [Ball.checkFinalized]
  split_ifs <;> exact ⟨rfl, rfl, rfl, rfl⟩

/-! ## Concrete inputs used by the witnesses -/

/-- A peg at the origin with the default radius. -/
def pegO : Peg := { x := 0, y := 0, radius := 12, particles := [] }

/-- A ball at (3, 4), overlapping pegO (center distance 5 < 24), moving
straight down. -/
def ballA : Ball := { x := 3, y := 4, radius := 12, vx := 0, vy := -5, finalized := false }

/-- A ball at (1, 0) with zero velocity, overlapping pegO. -/
def ballT : Ball := { x := 1, y := 0, radius := 12, vx := 0, vy := 0, finalized := false }

lemma ballA_dist : ballA.dist_centers pegO = 5 := by
  show Real.sqrt ((3 - 0) * (3 - 0) + (4 - 0) * (4 - 0)) = 5
  rw [show ((3 : ℝ) - 0) * (3 - 0) + (4 - 0) * (4 - 0) = 5 * 5 by norm_num]
  exact Real.sqrt_mul_self (by norm_num)

lemma ballA_overlap : ballA.dist_centers pegO < ballA.radius + pegO.radius := by
  rw [ballA_dist]
  show (5 : ℝ) < 12 + 12
  norm_num

lemma ballA_normal : ballA.collision_normal pegO = (3 / 5, 4 / 5) := by
  rw [Ball.collision_normal, if_neg (by rw [ballA_dist]; norm_num), ballA_dist]
  show (((3 : ℝ) - 0) / 5, ((4 : ℝ) - 0) / 5) = ((3 : ℝ) / 5, (4 : ℝ) / 5)
  norm_num

lemma ballA_dot_ne : ballA.vx * (ballA.collision_normal pegO).1
    + ballA.vy * (ballA.collision_normal pegO).2 ≠ 0 := by
  rw [ballA_normal]
  show (0 : ℝ) * (3 / 5) + (-5) * (4 / 5) ≠ 0
  norm_num

lemma ballT_overlap : ballT.dist_centers pegO < ballT.radius + pegO.radius := by
  have h : ballT.dist_centers pegO = 1 := by
    show Real.sqrt ((1 - 0) * (1 - 0) + (0 - 0) * (0 - 0)) = 1
    rw [show ((1 : ℝ) - 0) * (1 - 0) + (0 - 0) * (0 - 0) = 1 by norm_num]
    exact Real.sqrt_one
  rw [h]
  show (1 : ℝ) < 12 + 12
  norm_num

/-! ## Claim C1 -/

/-- C1: for every overlapping ball-peg pair, the resolution sets
`v' = v - 2*COLLISION_DAMPING*(v·n)*n`, i.e. reflects the velocity through
the formula `v - 2*(v·n)*n` with the reflected (normal) term scaled by the
damping factor `COLLISION_DAMPING < 1`, and the tangential component
`v·(-n.2, n.1)` is unchanged. -/
theorem velocity_reflection (b : Ball) (peg : Peg)
    (h : b.dist_centers peg < b.radius + peg.radius) :
    ((b.handle_peg_collision peg).vx
        = b.vx - 2 * (b.vx * (b.collision_normal peg).1 + b.vy * (b.collision_normal peg).2)
            * (b.collision_normal peg).1 * COLLISION_DAMPING ∧
      (b.handle_peg_collision peg).vy
        = b.vy - 2 * (b.vx * (b.collision_normal peg).1 + b.vy * (b.collision_normal peg).2)
            * (b.collision_normal peg).2 * COLLISION_DAMPING) ∧
    COLLISION_DAMPING < 1 ∧
    ((b.handle_peg_collision peg).vx * (-(b.collision_normal peg).2)
        + (b.handle_peg_collision peg).vy * (b.collision_normal peg).1
      = b.vx * (-(b.collision_normal peg).2) + b.vy * (b.collision_normal peg).1) := by
  refine ⟨⟨?_, ?_⟩, by norm_num [COLLISION_DAMPING],
    b.handle_peg_collision_tangential peg h⟩
  · rw [b.handle_peg_collision_of_lt peg h]
  · rw [b.handle_peg_collision_of_lt peg h]

/-- C1 witness: the collision of ballA with pegO satisfies the overlap
hypothesis and the reflection property. -/
theorem velocity_reflection_witness :
    ballA.dist_centers pegO < ballA.radius + pegO.radius ∧
    (((ballA.handle_peg_collision pegO).vx
        = ballA.vx - 2 * (ballA.vx * (ballA.collision_normal pegO).1
            + ballA.vy * (ballA.collision_normal pegO).2)
            * (ballA.collision_normal pegO).1 * COLLISION_DAMPING ∧
      (ballA.handle_peg_collision pegO).vy
        = ballA.vy - 2 * (ballA.vx * (ballA.collision_normal pegO).1
            + ballA.vy * (ballA.collision_normal pegO).2)
            * (ballA.collision_normal pegO).2 * COLLISION_DAMPING) ∧
    COLLISION_DAMPING < 1 ∧
    ((ballA.handle_peg_collision pegO).vx * (-(ballA.collision_normal pegO).2)
        + (ballA.handle_peg_collision pegO).vy * (ballA.collision_normal pegO).1
      = ballA.vx * (-(ballA.collision_normal pegO).2)
        + ballA.vy * (ballA.collision_normal pegO).1)) :=
  ⟨ballA_overlap, velocity_reflection ballA pegO ballA_overlap⟩

/-! ## Claim C3 -/

/-- C3: a single resolution of an overlapping ball-peg pair pushes the ball
along the collision normal by exactly the overlap, leaving the
post-resolution center distance equal to the sum of the radii; when the
centers coincide the fallback normal (1, 0) is used. -/
theorem peg_non_penetration (b : Ball) (peg : Peg)
    (h : b.dist_centers peg < b.radius + peg.radius) :
    (b.handle_peg_collision peg).dist_centers peg = b.radius + peg.radius ∧
    (b.handle_peg_collision peg).x
        = b.x + (b.collision_normal peg).1 * (b.radius + peg.radius - b.dist_centers peg) ∧
    (b.handle_peg_collision peg).y
        = b.y + (b.collision_normal peg).2 * (b.radius + peg.radius - b.dist_centers peg) ∧
    (b.dist_centers peg = 0 → b.collision_normal peg = (1, 0)) := by
  have hm : (0 : ℝ) ≤ b.radius + peg.radius :=
    le_of_lt (lt_of_le_of_lt (b.dist_centers_nonneg peg) h)
  obtain ⟨hx, hy⟩ := b.handle_peg_collision_offset peg h
  have hn := b.collision_normal_norm peg
  refine ⟨?_, ?_, ?_, ?_⟩
  · rw [Ball.dist_centers]
    have hsum : ((b.handle_peg_collision peg).x - peg.x)
          * ((b.handle_peg_collision peg).x - peg.x)
        + ((b.handle_peg_collision peg).y - peg.y)
          * ((b.handle_peg_collision peg).y - peg.y)
        = (b.radius + peg.radius) * (b.radius + peg.radius) := by
      rw [hx, hy]
      linear_combination ((b.radius + peg.radius) * (b.radius + peg.radius)) * hn
    rw [hsum]
    exact Real.sqrt_mul_self hm
  · rw [b.handle_peg_collision_of_lt peg h]
  · rw [b.handle_peg_collision_of_lt peg h]
  · intro h0
    rw [Ball.collision_normal, if_pos h0]

/-- C3 witness: the resolution of ballA against pegO restores tangency. -/
theorem peg_non_penetration_witness :
    ballA.dist_centers pegO < ballA.radius + pegO.radius ∧
    ((ballA.handle_peg_collision pegO).dist_centers pegO = ballA.radius + pegO.radius ∧
    (ballA.handle_peg_collision pegO).x
        = ballA.x + (ballA.collision_normal pegO).1
            * (ballA.radius + pegO.radius - ballA.dist_centers pegO) ∧
    (ballA.handle_peg_collision pegO).y
        = ballA.y + (ballA.collision_normal pegO).2
            * (ballA.radius + pegO.radius - ballA.dist_centers pegO) ∧
    (ballA.dist_centers pegO = 0 → ballA.collision_normal pegO = (1, 0))) :=
  ⟨ballA_overlap, peg_non_penetration ballA pegO ballA_overlap⟩

/-! ## Claim C4 -/

/-- C4: after any single simulation step the speed is at most
MAX_BALL_SPEED — the clamp leaves the speed at exactly the minimum of the
incoming speed and the cap, and no later sub-step increases it. -/
theorem speed_cap (b : Ball) (pegs : List Peg) (box_y_top : ℝ) :
    (b.update pegs box_y_top).speed ≤ MAX_BALL_SPEED ∧
    (b.clampSpeed).speed = min b.speed MAX_BALL_SPEED := by
  refine ⟨?_, b.clampSpeed_speed⟩
  rw [Ball.update]
  have h1 : (b.applyGravity.clampSpeed).speed ≤ MAX_BALL_SPEED := by
    rw [Ball.clampSpeed_speed]
    exact min_le_right _ _
  have h1sq : b.applyGravity.clampSpeed.vx * b.applyGravity.clampSpeed.vx
      + b.applyGravity.clampSpeed.vy * b.applyGravity.clampSpeed.vy
      ≤ MAX_BALL_SPEED * MAX_BALL_SPEED := by
    rw [← Ball.speed_mul_self]
    exact mul_le_mul h1 h1 (Ball.speed_nonneg _) (by norm_num [MAX_BALL_SPEED])
  have h3sq := le_trans (Ball.bounceWalls_speed_sq_le b.applyGravity.clampSpeed.integrate) h1sq
  have h4sq := le_trans
    (Ball.bounceCeiling_speed_sq_le b.applyGravity.clampSpeed.integrate.bounceWalls) h3sq
  have h5sq := le_trans (Ball.foldl_handle_speed_sq_le pegs
    b.applyGravity.clampSpeed.integrate.bounceWalls.bounceCeiling) h4sq
  obtain ⟨hvx, hvy, -, -⟩ := Ball.checkFinalized_fields
    (pegs.foldl Ball.handle_peg_collision
      b.applyGravity.clampSpeed.integrate.bounceWalls.bounceCeiling) box_y_top
  rw [Ball.speed, hvx, hvy]
  calc Real.sqrt _ ≤ Real.sqrt (MAX_BALL_SPEED * MAX_BALL_SPEED) := Real.sqrt_le_sqrt h5sq
    _ = MAX_BALL_SPEED := Real.sqrt_mul_self (by norm_num [MAX_BALL_SPEED])

/-! ## Claim C5 (corrected: the strict decrease needs a nonzero incoming
normal component; with zero incoming normal component both sides are 0) -/

/-- C5 counterexample: ballT overlaps pegO but has zero velocity, so the
post-resolution normal velocity component (0) is not strictly smaller in
magnitude than the incoming one (also 0). -/
theorem energy_loss_cex :
    ballT.dist_centers pegO < ballT.radius + pegO.radius ∧
    ¬ (|(ballT.handle_peg_collision pegO).vx * (ballT.collision_normal pegO).1
          + (ballT.handle_peg_collision pegO).vy * (ballT.collision_normal pegO).2|
        < |ballT.vx * (ballT.collision_normal pegO).1
          + ballT.vy * (ballT.collision_normal pegO).2|) := by
  refine ⟨ballT_overlap, ?_⟩
  have hdot := ballT.handle_peg_collision_dot pegO ballT_overlap
  have h0 : ballT.vx * (ballT.collision_normal pegO).1
      + ballT.vy * (ballT.collision_normal pegO).2 = 0 := by
    show (0 : ℝ) * _ + (0 : ℝ) * _ = 0
    ring
  rw [hdot, h0, mul_zero, abs_zero]
  exact lt_irrefl 0

/-- C5 (amended): for every resolved ball-peg collision whose incoming
velocity component along the collision normal is nonzero, the magnitude of
the post-resolution component along that normal is strictly smaller than
the incoming one (and with a zero incoming component both are zero). -/
theorem energy_loss_monotonicity (b : Ball) (peg : Peg)
    (h : b.dist_centers peg < b.radius + peg.radius)
    (hdot : b.vx * (b.collision_normal peg).1 + b.vy * (b.collision_normal peg).2 ≠ 0) :
    |(b.handle_peg_collision peg).vx * (b.collision_normal peg).1
        + (b.handle_peg_collision peg).vy * (b.collision_normal peg).2|
      < |b.vx * (b.collision_normal peg).1 + b.vy * (b.collision_normal peg).2| := by
  rw [b.handle_peg_collision_dot peg h, abs_mul,
    show |1 - 2 * COLLISION_DAMPING| = 0.8 by norm_num [COLLISION_DAMPING]]
  have hpos : 0 < |b.vx * (b.collision_normal peg).1
      + b.vy * (b.collision_normal peg).2| := abs_pos.mpr hdot
  linarith

/-- C5 witness: ballA hits pegO with incoming normal component -4. -/
theorem energy_loss_monotonicity_witness :
    ballA.dist_centers pegO < ballA.radius + pegO.radius ∧
    (ballA.vx * (ballA.collision_normal pegO).1
        + ballA.vy * (ballA.collision_normal pegO).2 ≠ 0) ∧
    |(ballA.handle_peg_collision pegO).vx * (ballA.collision_normal pegO).1
        + (ballA.handle_peg_collision pegO).vy * (ballA.collision_normal pegO).2|
      < |ballA.vx * (ballA.collision_normal pegO).1
        + ballA.vy * (ballA.collision_normal pegO).2| :=
  ⟨ballA_overlap, ballA_dot_ne,
    energy_loss_monotonicity ballA pegO ballA_overlap ballA_dot_ne⟩

/-! ## Position bounds: lemmas for wall containment -/

@[simp] lemma Ball.applyGravity_radius (b : Ball) : (b.applyGravity).radius = b.radius := rfl

@[simp] lemma Ball.integrate_radius (b : Ball) : (b.integrate).radius = b.radius := rfl

@[simp] lemma Ball.clampSpeed_radius (b : Ball) : (b.clampSpeed).radius = b.radius := by
  rw [Ball.clampSpeed]
  split_ifs <;> rfl

@[simp] lemma Ball.bounceWalls_radius (b : Ball) : (b.bounceWalls).radius = b.radius := by
  rw [Ball.bounceWalls]
  split_ifs <;> rfl

@[simp] lemma Ball.bounceCeiling_radius (b : Ball) : (b.bounceCeiling).radius = b.radius := by
  rw [Ball.bounceCeiling]
  split_ifs <;> rfl

@[simp] lemma Ball.bounceCeiling_x (b : Ball) : (b.bounceCeiling).x = b.x := by
  rw [Ball.bounceCeiling]
  split_ifs <;> rfl

/-- After the wall handling of lines 124-130 the x-coordinate lies between
the walls, whatever it was before. -/
lemma Ball.bounceWalls_x_mem (b : Ball) (h2 : 2 * b.radius ≤ SCREEN_WIDTH) :
    b.radius ≤ (b.bounceWalls).x ∧ (b.bounceWalls).x ≤ SCREEN_WIDTH - b.radius := by
  rw [Ball.bounceWalls]
  split_ifs with hA hB
  · exact ⟨le_refl _, by show b.radius ≤ SCREEN_WIDTH - b.radius; linarith⟩
  · constructor
    · show b.radius ≤ SCREEN_WIDTH - b.radius
      linarith
    · exact le_refl _
  · have hA' := not_lt.mp hA
    have hB' := not_lt.mp hB
    constructor <;> [linarith [hA'] ; linarith [hB']]

/-- One collision resolution keeps the x-coordinate inside any band that
contains both the old position and the tangency interval of the peg. -/
lemma Ball.handle_peg_collision_x_bounds (b : Ball) (peg : Peg) (lo hi : ℝ)
    (hb : lo ≤ b.x ∧ b.x ≤ hi)
    (hpeg : lo ≤ peg.x - (b.radius + peg.radius) ∧ peg.x + (b.radius + peg.radius) ≤ hi) :
    lo ≤ (b.handle_peg_collision peg).x ∧ (b.handle_peg_collision peg).x ≤ hi := by
  by_cases h : b.dist_centers peg < b.radius + peg.radius
  · obtain ⟨hx, -⟩ := b.handle_peg_collision_offset peg h
    have habs := b.collision_normal_abs_fst_le_one peg
    have hm : (0 : ℝ) ≤ b.radius + peg.radius :=
      le_of_lt (lt_of_le_of_lt (b.dist_centers_nonneg peg) h)
    have hb1 : |(b.collision_normal peg).1 * (b.radius + peg.radius)|
        ≤ b.radius + peg.radius := by
      rw [abs_mul, abs_of_nonneg hm]
      nlinarith [abs_nonneg (b.collision_normal peg).1]
    have hband := abs_le.mp hb1
    constructor <;> linarith [hx, hband.1, hband.2, hpeg.1, hpeg.2]
  · rw [b.handle_peg_collision_of_ge peg h]
    exact hb

/-- Resolving a whole peg list in order keeps the x-coordinate inside a
band that contains every peg's tangency interval. -/
lemma Ball.foldl_handle_x_bounds (pegs : List Peg) (b : Ball) (lo hi : ℝ)
    (hpegs : ∀ p ∈ pegs, lo ≤ p.x - (b.radius + p.radius) ∧ p.x + (b.radius + p.radius) ≤ hi)
    (hb : lo ≤ b.x ∧ b.x ≤ hi) :
    lo ≤ (pegs.foldl Ball.handle_peg_collision b).x ∧
      (pegs.foldl Ball.handle_peg_collision b).x ≤ hi := by
  induction pegs generalizing b with
  | nil => exact hb
  | cons p ps ih =>
      refine ih (b.handle_peg_collision p) ?_
        (b.handle_peg_collision_x_bounds p lo hi hb (hpegs p (List.mem_cons_self p ps)))
      intro q hq
      rw [Ball.handle_peg_collision_radius]
      exact hpegs q (List.mem_cons_of_mem p hq)

/-! ## Peg layout (lines 289-299) and playfield (lines 260-366) -/

/-- One row of init_pegs (lines 291-299): row r has r + 3 pegs with fixed
spacing, horizontally centered. Peg colors are cosmetic and not modelled. -/
noncomputable def init_pegs_row (row : ℕ) : List Peg :=
  (List.range (row + 3)).map (fun (i : ℕ) =>
    { x := (SCREEN_WIDTH - ((row + 3 - 1 : ℕ) : ℝ) * PEG_SPACING_X) / 2
          + (i : ℝ) * PEG_SPACING_X,
      y := PEG_OFFSET_TOP + (row : ℝ) * PEG_SPACING_Y,
      radius := PEG_RADIUS,
      particles := [] })

/-- init_pegs (lines 289-299): all NUM_PEG_ROWS rows, top to bottom. -/
noncomputable def init_pegs : List Peg :=
  (List.range NUM_PEG_ROWS).flatMap init_pegs_row

/-- Every generated peg has the default radius, an x-coordinate well inside
the playfield, and no particles. -/
lemma init_pegs_mem (p : Peg) (hp : p ∈ init_pegs) :
    p.radius = PEG_RADIUS ∧ 85 ≤ p.x ∧ p.x ≤ 715 ∧ p.particles = [] := by
  rw [init_pegs, List.mem_flatMap] at hp
  obtain ⟨row, hrowmem, hprow⟩ := hp
  rw [List.mem_range] at hrowmem
  rw [init_pegs_row, List.mem_map] at hprow
  obtain ⟨i, himem, rfl⟩ := hprow
  rw [List.mem_range] at himem
  have h32 : row + 3 - 1 = row + 2 := rfl
  have hrow' : (row : ℝ) ≤ 7 := by
    have : row ≤ 7 := by
      have h8 : row < 8 := by simpa [NUM_PEG_ROWS] using hrowmem
      omega
    exact_mod_cast this
  have hi' : (i : ℝ) ≤ (row : ℝ) + 2 := by
    have : i ≤ row + 2 := by omega
    exact_mod_cast this
  have hi0 : (0 : ℝ) ≤ (i : ℝ) := Nat.cast_nonneg i
  refine ⟨rfl, ?_, ?_, rfl⟩
  · show (85 : ℝ) ≤ (SCREEN_WIDTH - ((row + 3 - 1 : ℕ) : ℝ) * PEG_SPACING_X) / 2
        + (i : ℝ) * PEG_SPACING_X
    rw [h32]
    push_cast
    rw [show SCREEN_WIDTH = (800 : ℝ) from rfl, show PEG_SPACING_X = (70 : ℝ) from rfl]
    linarith
  · show (SCREEN_WIDTH - ((row + 3 - 1 : ℕ) : ℝ) * PEG_SPACING_X) / 2
        + (i : ℝ) * PEG_SPACING_X ≤ 715
    rw [h32]
    push_cast
    rw [show SCREEN_WIDTH = (800 : ℝ) from rfl, show PEG_SPACING_X = (70 : ℝ) from rfl]
    linarith

/-! ## Claim C2 -/

/-- C2: with the game's peg layout, a single Ball.update step leaves the
ball's x-coordinate between the walls: radius ≤ x ≤ playfield width -
radius (for a ball with the spawned radius BALL_RADIUS). -/
theorem wall_containment (b : Ball) (box_y_top : ℝ) (hr : b.radius = BALL_RADIUS) :
    BALL_RADIUS ≤ (b.update init_pegs box_y_top).x ∧
      (b.update init_pegs box_y_top).x ≤ SCREEN_WIDTH - BALL_RADIUS := by
  rw [Ball.update]
  have hwr : b.applyGravity.clampSpeed.integrate.bounceWalls.bounceCeiling.radius
      = BALL_RADIUS := by simp [hr]
  have hwx := Ball.bounceWalls_x_mem b.applyGravity.clampSpeed.integrate
    (by simp [hr]; norm_num [BALL_RADIUS, SCREEN_WIDTH])
  rw [show b.applyGravity.clampSpeed.integrate.radius = BALL_RADIUS by simp [hr]] at hwx
  have hcx : BALL_RADIUS ≤ b.applyGravity.clampSpeed.integrate.bounceWalls.bounceCeiling.x ∧
      b.applyGravity.clampSpeed.integrate.bounceWalls.bounceCeiling.x
        ≤ SCREEN_WIDTH - BALL_RADIUS := by
    rw [Ball.bounceCeiling_x]
    exact hwx
  have hfold := Ball.foldl_handle_x_bounds init_pegs
    b.applyGravity.clampSpeed.integrate.bounceWalls.bounceCeiling
    BALL_RADIUS (SCREEN_WIDTH - BALL_RADIUS) ?_ hcx
  · obtain ⟨-, -, hx, -⟩ := Ball.checkFinalized_fields
      (init_pegs.foldl Ball.handle_peg_collision
        b.applyGravity.clampSpeed.integrate.bounceWalls.bounceCeiling) box_y_top
    rw [hx]
    exact hfold
  · intro p hp
    obtain ⟨hpr, hp1, hp2, -⟩ := init_pegs_mem p hp
    rw [hwr, hpr]
    norm_num [BALL_RADIUS, PEG_RADIUS, SCREEN_WIDTH]
    constructor <;> linarith

/-- A ball at the center of the playfield with the default radius. -/
def ballC : Ball := { x := 400, y := 50, radius := 12, vx := 0, vy := 0, finalized := false }

/-- C2 witness: containment of the concrete ball ballC after one step. -/
theorem wall_containment_witness :
    ballC.radius = BALL_RADIUS ∧
    (BALL_RADIUS ≤ (ballC.update init_pegs 520).x ∧
      (ballC.update init_pegs 520).x ≤ SCREEN_WIDTH - BALL_RADIUS) :=
  ⟨rfl, wall_containment ballC 520 rfl⟩

/-! ## Scoring boxes (lines 301-312) -/

structure Box where
  left : ℝ
  right : ℝ
  top : ℝ
  value : ℤ

instance : Inhabited Peg := ⟨{ x := 0, y := 0, radius := 0, particles := [] }⟩

instance : Inhabited Box := ⟨{ left := 0, right := 0, top := 0, value := 0 }⟩

/-- Integer box width `SCREEN_WIDTH // BOX_COUNT` of line 303. -/
def width_per_box : ℕ := 800 / 5

/-- init_boxes (lines 301-312): BOX_COUNT equal-width boxes along the
bottom strip, with values cycled from BOX_VALUES. -/
def init_boxes : List Box :=
  (List.range BOX_COUNT).map (fun (i : ℕ) =>
    { left := ((i * width_per_box : ℕ) : ℝ),
      right := ((i * width_per_box + width_per_box : ℕ) : ℝ),
      top := SCREEN_HEIGHT - BOX_HEIGHT,
      value := BOX_VALUES.getD (i % BOX_VALUES.length) 0 })

/-- The box-match test of line 466: the box's horizontal span contains the
ball's x and the ball's lower edge is at or below the box's top. -/
def box_matches (box : Box) (ball : Ball) : Prop :=
  box.left ≤ ball.x ∧ ball.x ≤ box.right ∧ ball.y + ball.radius ≥ box.top

/-- handle_ball_box_score (lines 464-468): add the first matching box's
value to the score and stop; leave the score unchanged when none matches. -/
noncomputable def handle_ball_box_score (boxes : List Box) (ball : Ball) (score : ℤ) : ℤ :=
  match boxes with
  | [] => score
  | box :: rest =>
      if box_matches box ball then score + box.value
      else handle_ball_box_score rest ball score

/-! ## PlinkoGame (lines 260-468): the play-state fields the simulation
step reads and writes. UI state (buttons, menus, best score) is not
modelled. -/

structure PlinkoGame where
  score : ℤ
  balls_dropped : ℕ
  balls_allowed : ℕ
  pegs : List Peg
  balls : List Ball
  boxes : List Box

/-- reset_game (lines 361-366): zero the score and drop counter, clear the
balls, regenerate the pegs (the fresh pegs own no particles). -/
noncomputable def PlinkoGame.reset_game (s : PlinkoGame) : PlinkoGame :=
  { s with score := 0, balls_dropped := 0, balls := [], pegs := init_pegs }

/-- update_play (lines 444-456): update every peg, update every
non-finalized ball, score every finalized ball against the boxes, then keep
only the non-finalized balls. The game-over transition of lines 458-462
changes no play-state field. -/
noncomputable def PlinkoGame.update_play (s : PlinkoGame) : PlinkoGame :=
  let pegs := s.pegs.map Peg.update
  let box_y_top := SCREEN_HEIGHT - BOX_HEIGHT
  let balls := s.balls.map (fun b => if b.finalized then b else b.update pegs box_y_top)
  let score := (balls.filter (fun b => b.finalized)).foldl
      (fun sc b => handle_ball_box_score s.boxes b sc) s.score
  { s with pegs := pegs,
           balls := balls.filter (fun b => !b.finalized),
           score := score }

/-! ## Claim C6 -/

/-- C6: a finalized ball is passed through the per-ball branch of
update_play unchanged (never simulated), drained into the scoring pass,
removed from the active collection in the same step, and every ball that
remains active is non-finalized — so a finalized ball is never simulated
again nor transitioned back. -/
theorem finalization_monotonic (s : PlinkoGame) (b : Ball)
    (hb : b ∈ s.balls) (hf : b.finalized = true) :
    (if b.finalized then b
      else b.update (s.pegs.map Peg.update) (SCREEN_HEIGHT - BOX_HEIGHT)) = b ∧
    b ∈ (s.balls.map (fun q => if q.finalized then q
          else q.update (s.pegs.map Peg.update) (SCREEN_HEIGHT - BOX_HEIGHT))).filter
        (fun q => q.finalized) ∧
    b ∉ (s.update_play).balls ∧
    (∀ q ∈ (s.update_play).balls, q.finalized = false) := by
  have h1 : (if b.finalized then b
      else b.update (s.pegs.map Peg.update) (SCREEN_HEIGHT - BOX_HEIGHT)) = b :=
    if_pos hf
  refine ⟨h1, ?_, ?_, ?_⟩
  · rw [List.mem_filter]
    exact ⟨List.mem_map.mpr ⟨b, hb, h1⟩, hf⟩
  · intro hmem
    simp only [PlinkoGame.update_play, List.mem_filter] at hmem
    rw [hf] at hmem
    simp at hmem
  · intro q hq
    simp only [PlinkoGame.update_play, List.mem_filter] at hq
    simpa using hq.2

/-- A finalized ball sitting just above the first box. -/
def ballF : Ball := { x := 100, y := 590, radius := 12, vx := 0, vy := 0, finalized := true }

/-- A play state holding only the finalized ball ballF. -/
def gameW : PlinkoGame :=
  { score := 0, balls_dropped := 1, balls_allowed := 25, pegs := [],
    balls := [ballF], boxes := init_boxes }

/-- C6 witness: the finalized ball ballF of gameW is untouched, scored and
removed by one step. -/
theorem finalization_monotonic_witness :
    ballF ∈ gameW.balls ∧ ballF.finalized = true ∧
    ((if ballF.finalized then ballF
        else ballF.update (gameW.pegs.map Peg.update) (SCREEN_HEIGHT - BOX_HEIGHT)) = ballF ∧
    ballF ∈ (gameW.balls.map (fun q => if q.finalized then q
          else q.update (gameW.pegs.map Peg.update) (SCREEN_HEIGHT - BOX_HEIGHT))).filter
        (fun q => q.finalized) ∧
    ballF ∉ (gameW.update_play).balls ∧
    (∀ q ∈ (gameW.update_play).balls, q.finalized = false)) := by
  have h1 : ballF ∈ gameW.balls := List.mem_singleton_self ballF
  exact ⟨h1, rfl, finalization_monotonic gameW ballF h1 rfl⟩

/-! ## Claim C8 -/

/-- C8: a particle created with lifetime L > 0 stays in its owning peg's
collection for exactly L update steps — still present (aged) after any
k < L steps, pruned from the collection once k reaches L (its lifetime
having reached zero), and never retained after that. -/
theorem particle_exact_expiry (p : Particle) (g : Peg) (k : ℕ)
    (hg : g.particles = [p]) (hL : 0 < p.lifetime) :
    ((k : ℤ) < p.lifetime → (Peg.update^[k] g).particles = [Particle.update^[k] p]) ∧
    (p.lifetime ≤ (k : ℤ) → (Peg.update^[k] g).particles = []) ∧
    (Particle.update^[k] p).lifetime = p.lifetime - k := by
  have hall : ∀ q ∈ g.particles, 0 < q.lifetime := by
    rw [hg]
    intro q hq
    rw [List.mem_singleton.mp hq]
    exact hL
  have hiter := Peg.particles_update_iterate g k hall
  rw [hg] at hiter
  refine ⟨?_, ?_, Particle.lifetime_iterate p k⟩
  · intro hk
    rw [hiter]
    simp [List.filter, hk]
  · intro hk
    rw [hiter]
    simp [List.filter, not_lt.mpr hk]

/-- A particle with the default lifetime. -/
def particleW : Particle := { x := 0, y := 0, vx := 1, vy := 0, lifetime := PARTICLE_LIFETIME }

/-- A peg owning exactly particleW. -/
def pegW : Peg := { x := 10, y := 10, radius := 12, particles := [particleW] }

/-- C8 witness: particleW survives 3 steps of its peg and its lifetime
decreases by 3. -/
theorem particle_exact_expiry_witness :
    pegW.particles = [particleW] ∧ 0 < particleW.lifetime ∧
    ((((3 : ℕ) : ℤ) < particleW.lifetime →
        (Peg.update^[3] pegW).particles = [Particle.update^[3] particleW]) ∧
      (particleW.lifetime ≤ ((3 : ℕ) : ℤ) → (Peg.update^[3] pegW).particles = []) ∧
      (Particle.update^[3] particleW).lifetime = particleW.lifetime - (3 : ℕ)) :=
  ⟨rfl, by decide, particle_exact_expiry particleW pegW 3 rfl (by decide)⟩

/-! ## Claim C7 -/

/-- The score loop of lines 464-468 computes: the old score plus the value
of the first matching box, or plus nothing when no box matches. -/
lemma handle_ball_box_score_eq (boxes : List Box) (ball : Ball) (score : ℤ) :
    handle_ball_box_score boxes ball score
      = score + (((boxes.find? (fun box => decide (box_matches box ball))).map
          Box.value).getD 0) := by
  induction boxes with
  | nil => simp [handle_ball_box_score]
  | cons box rest ih =>
      by_cases h : box_matches box ball
      · rw [handle_ball_box_score, if_pos h,
          List.find?_cons_of_pos _ (by simpa using h)]
        simp
      · rw [handle_ball_box_score, if_neg h,
          List.find?_cons_of_neg _ (by simpa using h), ih]

/-- C7: scoring a finalized ball adds the value of the first box (in the
left-to-right box order, init_boxes being sorted by left edge) whose span
contains the ball's x and whose top is at or above the ball's lower edge,
exactly once; when no box matches the score is returned unchanged and
nothing faults. -/
theorem scoring_first_match (boxes : List Box) (ball : Ball) (score : ℤ) :
    (handle_ball_box_score boxes ball score
        = score + (((boxes.find? (fun box => decide (box_matches box ball))).map
            Box.value).getD 0)) ∧
    ((∀ box ∈ boxes, ¬ box_matches box ball) →
      handle_ball_box_score boxes ball score = score) ∧
    List.Chain' (fun a c => a.left < c.left) init_boxes := by
  refine ⟨handle_ball_box_score_eq boxes ball score, ?_, ?_⟩
  · intro hnone
    rw [handle_ball_box_score_eq boxes ball score, List.find?_eq_none.mpr]
    · simp
    · intro box hmem
      simpa using hnone box hmem
  · rw [init_boxes, show List.range BOX_COUNT = [0, 1, 2, 3, 4] from rfl]
    simp only [List.map_cons, List.map_nil, List.chain'_cons, List.chain'_singleton,
      and_true]
    refine ⟨?_, ?_, ?_, ?_⟩ <;> (show ((_ : ℕ) : ℝ) < ((_ : ℕ) : ℝ); exact_mod_cast by decide)

/-! ## Claim C9 -/

lemma init_pegs_row_length (r : ℕ) : (init_pegs_row r).length = r + 3 := by
  rw [init_pegs_row, List.length_map, List.length_range]

lemma init_pegs_row_getD_x (r i : ℕ) (hi : i < r + 3) :
    ((init_pegs_row r).getD i default).x
      = (SCREEN_WIDTH - ((r + 2 : ℕ) : ℝ) * PEG_SPACING_X) / 2
          + (i : ℝ) * PEG_SPACING_X := by
  rw [init_pegs_row, List.getD_eq_getElem?_getD, List.getElem?_map,
    List.getElem?_range hi]
  rfl

/-- C9: after reset_game the peg collection is regenerated with, for each
row r < NUM_PEG_ROWS, exactly r + 3 pegs placed symmetrically about the
playfield center (peg i and peg r+2-i of a row have x-coordinates summing
to the playfield width), the total peg count is the triangular sum of
(r + 3), and all balls and all particles are cleared. -/
theorem playfield_reset (s : PlinkoGame) :
    (s.reset_game).pegs.length = ((List.range NUM_PEG_ROWS).map (fun r => r + 3)).sum ∧
    (∀ r, r < NUM_PEG_ROWS → (init_pegs_row r).length = r + 3) ∧
    (∀ r, r < NUM_PEG_ROWS → ∀ i, i < r + 3 →
      ((init_pegs_row r).getD i default).x
          + ((init_pegs_row r).getD (r + 2 - i) default).x = SCREEN_WIDTH) ∧
    (s.reset_game).balls = [] ∧
    (∀ peg ∈ (s.reset_game).pegs, peg.particles = []) := by
  refine ⟨?_, fun r _ => init_pegs_row_length r, ?_, rfl, ?_⟩
  · show init_pegs.length = _
    rw [init_pegs, List.length_flatMap]
    exact congrArg List.sum (List.map_congr_left (fun r _ => init_pegs_row_length r))
  · intro r _ i hi
    rw [init_pegs_row_getD_x r i hi, init_pegs_row_getD_x r (r + 2 - i) (by omega)]
    have hcast : ((r + 2 - i : ℕ) : ℝ) = (r : ℝ) + 2 - (i : ℝ) := by
      have hle : i ≤ r + 2 := by omega
      push_cast [hle]
      ring
    rw [hcast]
    push_cast
    ring
  · intro peg hp
    exact (init_pegs_mem peg hp).2.2.2

/-! ## Claim C10 -/

/-- Every generated box carries a strictly positive value. -/
lemma init_boxes_value_pos : ∀ box ∈ init_boxes, 0 < box.value := by
  intro box hb
  rw [init_boxes, List.mem_map] at hb
  obtain ⟨i, hi, rfl⟩ := hb
  rw [List.mem_range] at hi
  have hi5 : i < 5 := by simpa [BOX_COUNT] using hi
  interval_cases i <;> decide

/-- The scoring loop never decreases the score when all box values are
nonnegative. -/
lemma handle_ball_box_score_le :
    ∀ (boxes : List Box) (ball : Ball) (score : ℤ),
      (∀ box ∈ boxes, 0 ≤ box.value) →
      score ≤ handle_ball_box_score boxes ball score := by
  intro boxes ball score
  induction boxes with
  | nil =>
      intro _
      exact le_refl _
  | cons box rest ih =>
      intro hpos
      rw [handle_ball_box_score]
      split_ifs
      · linarith [hpos box (List.mem_cons_self box rest)]
      · exact ih (fun q hq => hpos q (List.mem_cons_of_mem box hq))

/-- Folding the scoring loop over any ball list never decreases the score. -/
lemma foldl_score_le (ballList : List Ball) (boxes : List Box) :
    ∀ score : ℤ, (∀ box ∈ boxes, 0 ≤ box.value) →
      score ≤ ballList.foldl (fun sc b => handle_ball_box_score boxes b sc) score := by
  induction ballList with
  | nil =>
      intro score _
      exact le_refl _
  | cons b rest ih =>
      intro score hpos
      calc score ≤ handle_ball_box_score boxes b score :=
            handle_ball_box_score_le boxes b score hpos
        _ ≤ _ := ih _ hpos

/-- C10: when the play state carries the generated boxes, one simulation
step never decreases the score; every BOX_VALUES entry is strictly
positive, and scoring a ball that matches some box strictly increases the
score. -/
theorem score_monotone (s : PlinkoGame) (hbox : s.boxes = init_boxes) :
    s.score ≤ (s.update_play).score ∧
    (∀ v ∈ BOX_VALUES, 0 < v) ∧
    (∀ ball : Ball, (∃ box ∈ init_boxes, box_matches box ball) →
      s.score < handle_ball_box_score init_boxes ball s.score) := by
  refine ⟨?_, by decide, ?_⟩
  · show s.score ≤ (PlinkoGame.update_play s).score
    simp only [PlinkoGame.update_play]
    rw [hbox]
    exact foldl_score_le _ init_boxes s.score
      (fun box hb => le_of_lt (init_boxes_value_pos box hb))
  · intro ball ⟨box, hbmem, hbm⟩
    have hsome : (init_boxes.find? (fun bx => decide (box_matches bx ball))).isSome := by
      rw [List.find?_isSome]
      exact ⟨box, hbmem, by simpa using hbm⟩
    obtain ⟨bx, hbx⟩ := Option.isSome_iff_exists.mp hsome
    have hpos := init_boxes_value_pos bx (List.mem_of_find?_eq_some hbx)
    rw [handle_ball_box_score_eq, hbx]
    simp only [Option.map_some', Option.getD_some]
    linarith

/-- C10 witness: the concrete play state gameW carries the generated
boxes. -/
theorem score_monotone_witness :
    gameW.boxes = init_boxes ∧
    (gameW.score ≤ (gameW.update_play).score ∧
    (∀ v ∈ BOX_VALUES, 0 < v) ∧
    (∀ ball : Ball, (∃ box ∈ init_boxes, box_matches box ball) →
      gameW.score < handle_ball_box_score init_boxes ball gameW.score)) :=
  ⟨rfl, score_monotone gameW rfl⟩
